import Mathlib

/-!
Shallow embedding of `backoff.py` (function decoration for backoff and retry)
and verification of its specified properties.

The Python generators `expo`, `fibo`, `constant` are embedded as explicit
state/yield functions indexed by the number of `next()` calls performed so
far.  The retry loops of `on_predicate` and `on_exception` are embedded twice,
faithfully to the same source lines: once as a fuel-indexed run function that
produces the full trace of observable events (target invocations, handler
invocations with the exact arguments the code passes, sleeps), and once as a
small-step state function suitable for invariant and non-termination
arguments.  Delays are rationals; the wrapped target is a function from the
attempt index to its result (or raised exception, in exception mode).
-/

namespace Backoff

/-- State of the `expo` generator: the exponent `n` after `k` yields.
Source: `n = 0; while True: a = base ** n; if max_value is None or
a < max_value: yield a; n += 1 else: yield max_value`. -/
def expoState (base : ℚ) (max_value : Option ℚ) : Nat → Nat
  | 0 => 0
  | k + 1 =>
    let n := expoState base max_value k
    match max_value with
    | none => n + 1
    | some m => if base ^ n < m then n + 1 else n

/-- The `k`-th value yielded by `expo(base, max_value)` (0-indexed). -/
def expoYield (base : ℚ) (max_value : Option ℚ) (k : Nat) : ℚ :=
  let n := expoState base max_value k
  match max_value with
  | none => base ^ n
  | some m => if base ^ n < m then base ^ n else m

/-- State of the `fibo` generator: the pair `(a, b)` after `k` yields.
Source: `a = 1; b = 1; while True: if max_value is None or a < max_value:
yield a; a, b = b, a + b else: yield max_value`. -/
def fiboPair (max_value : Option ℚ) : Nat → ℚ × ℚ
  | 0 => (1, 1)
  | k + 1 =>
    let p := fiboPair max_value k
    match max_value with
    | none => (p.2, p.1 + p.2)
    | some m => if p.1 < m then (p.2, p.1 + p.2) else p

/-- The `k`-th value yielded by `fibo(max_value)` (0-indexed). -/
def fiboYield (max_value : Option ℚ) (k : Nat) : ℚ :=
  let p := fiboPair max_value k
  match max_value with
  | none => p.1
  | some m => if p.1 < m then p.1 else m

/-- The `k`-th value yielded by `constant(interval)`: always `interval`. -/
def constantYield (interval : ℚ) (_k : Nat) : ℚ := interval

/-- A caller-supplied handler argument: in the Python source the keyword
arguments `on_success` / `on_backoff` / `on_giveup` may be `None` (modelled
as `none`), a single callable (`some (.inl h)`), or an iterable of callables
(`some (.inr hs)`, distinguished in the source via `hasattr(hdlr, '__iter__')`). -/
def HdlrArg (H : Type) : Type := Option (H ⊕ List H)

/-- Embedding of `_handlers(hdlr, default=None)`:
`defaults = [default] if default is not None else []`; `None` maps to
`defaults`; an iterable maps to `defaults + list(hdlr)`; a single callable
maps to `defaults + [hdlr]`. -/
def _handlers {H : Type} (hdlr : HdlrArg H) (default : Option H) : List H :=
  let defaults := match default with
    | some d => [d]
    | none => []
  match hdlr with
  | none => defaults
  | some (Sum.inr hs) => defaults ++ hs
  | some (Sum.inl h) => defaults ++ [h]

/-- The caller-supplied handlers of a handler argument, in their given order
(no default): the list the spec says is appended after the default. -/
def callerHandlers {H : Type} : HdlrArg H → List H
  | none => []
  | some (Sum.inl h) => [h]
  | some (Sum.inr hs) => hs

/-- Observable events of one invocation of the `retry` wrapper.  A handler
invocation event records the index of the handler in its (normalized) handler
list together with the arguments the source passes beyond the constant
`invoc` tuple: in this version of the code every handler call site is
`hdlr(invoc, tries)`, so the payload beyond `invoc` is the try counter alone. -/
inductive Ev where
  | call (k : Nat)
  | success (i tries : Nat)
  | backoff (i tries : Nat)
  | giveup (i tries : Nat)
  | sleep (seconds : ℚ)
deriving DecidableEq, Repr

/-- Events of a `for hdlr in hdlrs: hdlr(invoc, tries)` loop over a handler
list of length `n`: one event per handler, in list order. -/
def fireAll (mk : Nat → Ev) (n : Nat) : List Ev :=
  (List.range n).map mk

/-- Embedding of the `retry` loop of `on_predicate.decorate`.  Arguments:
`predicate` and `maxTries` as configured; `wait k` is the `k`-th value the
wait generator yields and `jitter k` the value of the `k`-th call of the
jitter function (both are consumed once per backoff, in lockstep); `nSucc`,
`nBack`, `nGive` are the lengths of the normalized handler lists; `target k`
is the result of the `k`-th invocation of the target (predicate mode
intercepts no exceptions).  The trailing arguments are fuel (loop iterations
allowed), the current `tries` counter and the iteration index `k`; `none`
means the loop did not terminate within the fuel.  Returns the trace of
events together with the returned value `ret`. -/
def onPredicateRun {α : Type} (predicate : α → Bool) (maxTries : Option Nat)
    (wait jitter : Nat → ℚ) (nSucc nBack nGive : Nat) (target : Nat → α) :
    Nat → Nat → Nat → Option (List Ev × α)
  | 0, _, _ => none
  | fuel + 1, tries, k =>
    let ret := target k
    if predicate ret then
      let tries1 := tries + 1
      if maxTries = some tries1 then
        some (Ev.call k :: fireAll (fun i => Ev.giveup i tries1) nGive, ret)
      else
        let seconds := wait k + jitter k
        match onPredicateRun predicate maxTries wait jitter nSucc nBack nGive
            target fuel tries1 (k + 1) with
        | none => none
        | some (tr, r) =>
          some (Ev.call k ::
            (fireAll (fun i => Ev.backoff i tries1) nBack ++ Ev.sleep seconds :: tr), r)
    else
      some (Ev.call k :: fireAll (fun i => Ev.success i tries) nSucc, ret)

/-- Embedding of the `retry` loop of `on_exception.decorate`.  `exception e`
tells whether a raised exception `e` matches the configured exception type(s)
(the `except exception:` clause); `target k` is the outcome of the `k`-th
invocation (`.error e` models a raise).  The result value is `.ok ret` for a
normal return, `.error e` for an exception propagating to the caller (either
the re-`raise` after giveup or an unmatched exception). -/
def onExceptionRun {α ε : Type} (exception : ε → Bool) (maxTries : Option Nat)
    (wait jitter : Nat → ℚ) (nSucc nBack nGive : Nat) (target : Nat → Except ε α) :
    Nat → Nat → Nat → Option (List Ev × Except ε α)
  | 0, _, _ => none
  | fuel + 1, tries, k =>
    match target k with
    | Except.error e =>
      if exception e then
        let tries1 := tries + 1
        if maxTries = some tries1 then
          some (Ev.call k :: fireAll (fun i => Ev.giveup i tries1) nGive, Except.error e)
        else
          let seconds := wait k + jitter k
          match onExceptionRun exception maxTries wait jitter nSucc nBack nGive
              target fuel tries1 (k + 1) with
          | none => none
          | some (tr, r) =>
            some (Ev.call k ::
              (fireAll (fun i => Ev.backoff i tries1) nBack ++ Ev.sleep seconds :: tr), r)
      else
        some ([Ev.call k], Except.error e)
    | Except.ok a =>
      some (Ev.call k :: fireAll (fun i => Ev.success i tries) nSucc, Except.ok a)

/-- Small-step state of the predicate-mode retry loop: either still looping
(with the current `tries` counter and iteration index `k`), or terminated by
the success branch, or terminated by the giveup branch (`break`, returning
the last unsatisfactory result). -/
inductive LoopSt (α : Type) where
  | run (tries k : Nat)
  | succeeded (tries : Nat) (ret : α)
  | givenUp (tries : Nat) (ret : α)
deriving DecidableEq, Repr

/-- Try counter of a predicate-mode loop state. -/
def LoopSt.tries {α : Type} : LoopSt α → Nat
  | .run t _ => t
  | .succeeded t _ => t
  | .givenUp t _ => t

/-- One iteration of the `while True` loop of `on_predicate.decorate.retry`
(terminal states are fixed points). -/
def predStep {α : Type} (predicate : α → Bool) (maxTries : Option Nat)
    (target : Nat → α) : LoopSt α → LoopSt α
  | .run tries k =>
    let ret := target k
    if predicate ret then
      let tries1 := tries + 1
      if maxTries = some tries1 then .givenUp tries1 ret
      else .run tries1 (k + 1)
    else .succeeded tries ret
  | s => s

/-- The predicate-mode loop state after `n` iterations, starting from
`tries = 0` with a fresh wait generator. -/
def predIter {α : Type} (predicate : α → Bool) (maxTries : Option Nat)
    (target : Nat → α) (n : Nat) : LoopSt α :=
  (predStep predicate maxTries target)^[n] (.run 0 0)

/-- Small-step state of the exception-mode retry loop: looping, returned
normally, gave up (re-raising `e`), or terminated at once by an exception not
matching the configured types (which the `except` clause does not catch). -/
inductive ExcSt (ε α : Type) where
  | run (tries k : Nat)
  | succeeded (tries : Nat) (ret : α)
  | givenUp (tries : Nat) (e : ε)
  | uncaught (tries : Nat) (e : ε)
deriving DecidableEq, Repr

/-- Try counter of an exception-mode loop state. -/
def ExcSt.tries {ε α : Type} : ExcSt ε α → Nat
  | .run t _ => t
  | .succeeded t _ => t
  | .givenUp t _ => t
  | .uncaught t _ => t

/-- One iteration of the `while True` loop of `on_exception.decorate.retry`
(terminal states are fixed points). -/
def excStep {α ε : Type} (exception : ε → Bool) (maxTries : Option Nat)
    (target : Nat → Except ε α) : ExcSt ε α → ExcSt ε α
  | .run tries k =>
    match target k with
    | Except.ok a => .succeeded tries a
    | Except.error e =>
      if exception e then
        let tries1 := tries + 1
        if maxTries = some tries1 then .givenUp tries1 e
        else .run tries1 (k + 1)
      else .uncaught tries e
  | s => s

/-- The exception-mode loop state after `n` iterations, starting from
`tries = 0` with a fresh wait generator. -/
def excIter {α ε : Type} (exception : ε → Bool) (maxTries : Option Nat)
    (target : Nat → Except ε α) (n : Nat) : ExcSt ε α :=
  (excStep exception maxTries target)^[n] (.run 0 0)

/-- Number of target invocations recorded in a trace. -/
def numCalls (tr : List Ev) : Nat :=
  tr.countP fun e => match e with | .call _ => true | _ => false

/-- The giveup-handler invocations of a trace, in order, as pairs of the
handler index and the `tries` argument passed. -/
def giveupEvts (tr : List Ev) : List (Nat × Nat) :=
  tr.filterMap fun e => match e with | .giveup i t => some (i, t) | _ => none

/-- The sleep durations of a trace, in order. -/
def sleeps (tr : List Ev) : List ℚ :=
  tr.filterMap fun e => match e with | .sleep s => some s | _ => none

@[simp] lemma numCalls_nil : numCalls [] = 0 := rfl

@[simp] lemma numCalls_cons_call (k : Nat) (tr : List Ev) :
    numCalls (Ev.call k :: tr) = numCalls tr + 1 := by
  simp [numCalls, List.countP_cons]

@[simp] lemma numCalls_cons_sleep (s : ℚ) (tr : List Ev) :
    numCalls (Ev.sleep s :: tr) = numCalls tr := by
  simp [numCalls, List.countP_cons]

@[simp] lemma numCalls_append (l₁ l₂ : List Ev) :
    numCalls (l₁ ++ l₂) = numCalls l₁ + numCalls l₂ := by
  simp [numCalls, List.countP_append]

@[simp] lemma numCalls_fireAll_success (t n : Nat) :
    numCalls (fireAll (fun i => Ev.success i t) n) = 0 := by
  simp [numCalls, fireAll, List.countP_map]

@[simp] lemma numCalls_fireAll_backoff (t n : Nat) :
    numCalls (fireAll (fun i => Ev.backoff i t) n) = 0 := by
  simp [numCalls, fireAll, List.countP_map]

@[simp] lemma numCalls_fireAll_giveup (t n : Nat) :
    numCalls (fireAll (fun i => Ev.giveup i t) n) = 0 := by
  simp [numCalls, fireAll, List.countP_map]

@[simp] lemma giveupEvts_nil : giveupEvts [] = [] := rfl

@[simp] lemma giveupEvts_cons_call (k : Nat) (tr : List Ev) :
    giveupEvts (Ev.call k :: tr) = giveupEvts tr := by
  simp [giveupEvts, List.filterMap_cons]

@[simp] lemma giveupEvts_cons_sleep (s : ℚ) (tr : List Ev) :
    giveupEvts (Ev.sleep s :: tr) = giveupEvts tr := by
  simp [giveupEvts, List.filterMap_cons]

@[simp] lemma giveupEvts_append (l₁ l₂ : List Ev) :
    giveupEvts (l₁ ++ l₂) = giveupEvts l₁ ++ giveupEvts l₂ := by
  simp [giveupEvts, List.filterMap_append]

@[simp] lemma giveupEvts_fireAll_success (t n : Nat) :
    giveupEvts (fireAll (fun i => Ev.success i t) n) = [] := by
  simp [giveupEvts, fireAll, List.filterMap_map]

@[simp] lemma giveupEvts_fireAll_backoff (t n : Nat) :
    giveupEvts (fireAll (fun i => Ev.backoff i t) n) = [] := by
  simp [giveupEvts, fireAll, List.filterMap_map]

@[simp] lemma giveupEvts_fireAll_giveup (t n : Nat) :
    giveupEvts (fireAll (fun i => Ev.giveup i t) n) = (List.range n).map fun i => (i, t) := by
  simp only [giveupEvts, fireAll, List.filterMap_map]
  exact congrFun (List.filterMap_eq_map fun i => (i, t)) (List.range n)

@[simp] lemma sleeps_nil : sleeps [] = [] := rfl

@[simp] lemma sleeps_cons_call (k : Nat) (tr : List Ev) :
    sleeps (Ev.call k :: tr) = sleeps tr := by
  simp [sleeps, List.filterMap_cons]

@[simp] lemma sleeps_cons_sleep (s : ℚ) (tr : List Ev) :
    sleeps (Ev.sleep s :: tr) = s :: sleeps tr := by
  simp [sleeps, List.filterMap_cons]

@[simp] lemma sleeps_append (l₁ l₂ : List Ev) :
    sleeps (l₁ ++ l₂) = sleeps l₁ ++ sleeps l₂ := by
  simp [sleeps, List.filterMap_append]

@[simp] lemma sleeps_fireAll_success (t n : Nat) :
    sleeps (fireAll (fun i => Ev.success i t) n) = [] := by
  simp [sleeps, fireAll, List.filterMap_map]

@[simp] lemma sleeps_fireAll_backoff (t n : Nat) :
    sleeps (fireAll (fun i => Ev.backoff i t) n) = [] := by
  simp [sleeps, fireAll, List.filterMap_map]

@[simp] lemma sleeps_fireAll_giveup (t n : Nat) :
    sleeps (fireAll (fun i => Ev.giveup i t) n) = [] := by
  simp [sleeps, fireAll, List.filterMap_map]

lemma expoState_frozen (base m : ℚ) (k : Nat)
    (h : m ≤ base ^ expoState base (some m) k) :
    expoState base (some m) (k + 1) = expoState base (some m) k := by
  simp only [expoState]
  rw [if_neg (not_lt.mpr h)]

lemma expoState_frozen_of_le (base m : ℚ) (k : Nat)
    (h : m ≤ base ^ expoState base (some m) k) :
    ∀ j, k ≤ j → expoState base (some m) j = expoState base (some m) k := by
  intro j hj
  induction j, hj using Nat.le_induction with
  | base => rfl
  | succ j hj ih =>
    rw [← ih] at h ⊢
    exact expoState_frozen base m j h

lemma fiboPair_frozen (m : ℚ) (k : Nat) (h : m ≤ (fiboPair (some m) k).1) :
    fiboPair (some m) (k + 1) = fiboPair (some m) k := by
  simp only [fiboPair]
  rw [if_neg (not_lt.mpr h)]

lemma fiboPair_frozen_of_le (m : ℚ) (k : Nat) (h : m ≤ (fiboPair (some m) k).1) :
    ∀ j, k ≤ j → fiboPair (some m) j = fiboPair (some m) k := by
  intro j hj
  induction j, hj using Nat.le_induction with
  | base => rfl
  | succ j hj ih =>
    rw [← ih] at h ⊢
    exact fiboPair_frozen m j h

/-- C7: for every `max_value` passed to `expo` or `fibo`, once the computed
term reaches or exceeds `max_value` (at yield index `kE` for `expo`, `kF` for
`fibo`), every subsequently yielded value equals exactly `max_value`; the cap
is permanent because the generator state is frozen at the first capped yield. -/
theorem cap_is_permanent (base m : ℚ) (kE kF : Nat)
    (hE : m ≤ base ^ expoState base (some m) kE)
    (hF : m ≤ (fiboPair (some m) kF).1) :
    (∀ j, kE ≤ j → expoYield base (some m) j = m) ∧
    (∀ j, kF ≤ j → fiboYield (some m) j = m) := by
  constructor
  · intro j hj
    simp only [expoYield, expoState_frozen_of_le base m kE hE j hj]
    rw [if_neg (not_lt.mpr hE)]
  · intro j hj
    simp only [fiboYield, fiboPair_frozen_of_le m kF hF j hj]
    rw [if_neg (not_lt.mpr hF)]

/-- Witness for C7 at `expo(base=2, max_value=4)` and `fibo(max_value=4)`:
the cap is reached at yield index 2 (value 4) resp. index 4 (true term 5),
and the yields at indices 3 resp. 5 equal the cap. -/
theorem cap_is_permanent_witness :
    Backoff.expoYield 2 (some 4) 3 = 4 ∧ Backoff.fiboYield (some 4) 5 = 4 :=
  ⟨(Backoff.cap_is_permanent 2 4 2 4 (by norm_num [Backoff.expoState])
      (by norm_num [Backoff.fiboPair])).1 3 (by decide),
   (Backoff.cap_is_permanent 2 4 2 4 (by norm_num [Backoff.expoState])
      (by norm_num [Backoff.fiboPair])).2 5 (by decide)⟩

/-- C10: for every configuration of a handler keyword argument (absent, a
single callable, or an iterable of callables), the normalized list with a
default (the backoff/giveup case, where `_log_backoff` / `_log_giveup` is
passed as default) begins with that default, with the caller-supplied
handlers appended after it in their given order; without a default (the
success case) the list is exactly the caller-supplied handlers, hence empty
when the argument is absent. -/
theorem handlers_default_first {H : Type} (d : H) (cfg : HdlrArg H) :
    _handlers cfg (some d) = d :: callerHandlers cfg ∧
    _handlers cfg (none : Option H) = callerHandlers cfg := by
  cases cfg with
  | none => exact ⟨rfl, rfl⟩
  | some s =>
    cases s with
    | inl h => exact ⟨rfl, rfl⟩
    | inr hs => exact ⟨rfl, rfl⟩

/-- C6: in exception mode, an exception `e` raised on the first attempt that
does not match the configured exception types terminates the wrapped call at
once: the trace holds exactly one target invocation and no handler or sleep
event, and the same exception propagates (`.error e`). -/
theorem unmatched_exception_propagates {α ε : Type} (exception : ε → Bool)
    (maxTries : Option Nat) (wait jitter : Nat → ℚ) (nSucc nBack nGive : Nat)
    (target : Nat → Except ε α) (e : ε) (fuel : Nat)
    (ht : target 0 = Except.error e) (he : exception e = false) :
    onExceptionRun exception maxTries wait jitter nSucc nBack nGive target
      (fuel + 1) 0 0 = some ([Ev.call 0], Except.error e) := by
  simp [onExceptionRun, ht, he]

/-- Witness for C6: a wrapped operation raising a non-matching exception (the
match function is constantly `false`) is invoked once and the exception
propagates unchanged. -/
theorem unmatched_exception_propagates_witness :
    Backoff.onExceptionRun (fun _ : Nat => false) (some 3) (fun _ => 0) (fun _ => 0)
      1 1 1 (fun _ => (Except.error 7 : Except Nat Nat)) 5 0 0
      = some ([Backoff.Ev.call 0], Except.error 7) :=
  Backoff.unmatched_exception_propagates (fun _ => false) (some 3) (fun _ => 0)
    (fun _ => 0) 1 1 1 (fun _ => Except.error 7) 7 4 rfl rfl

/-- C9: in both modes, when the first attempt succeeds (predicate false on
the result, resp. a normal return), the trace is exactly one target
invocation followed by one invocation of each configured success handler
with `tries = 0`: no backoff or giveup handler fires, no sleep occurs, and
the operation's result is returned. -/
theorem first_attempt_success {α β ε : Type} (predicate : α → Bool)
    (exception : ε → Bool) (mtP mtE : Option Nat) (wait jitter : Nat → ℚ)
    (nSucc nBack nGive : Nat) (targP : Nat → α) (targE : Nat → Except ε β)
    (b : β) (fuel : Nat)
    (hp : predicate (targP 0) = false) (he : targE 0 = Except.ok b) :
    onPredicateRun predicate mtP wait jitter nSucc nBack nGive targP (fuel + 1) 0 0
      = some (Ev.call 0 :: fireAll (fun i => Ev.success i 0) nSucc, targP 0) ∧
    onExceptionRun exception mtE wait jitter nSucc nBack nGive targE (fuel + 1) 0 0
      = some (Ev.call 0 :: fireAll (fun i => Ev.success i 0) nSucc, Except.ok b) := by
  constructor
  · simp [onPredicateRun, hp]
  · simp [onExceptionRun, he]

/-- Witness for C9: concrete first-attempt successes in both modes with two
configured success handlers. -/
theorem first_attempt_success_witness :
    Backoff.onPredicateRun (fun r : Nat => r == 0) (some 3) (fun _ => 1) (fun _ => 0)
      2 1 1 (fun _ => 5) 4 0 0
      = some (Backoff.Ev.call 0 ::
          Backoff.fireAll (fun i => Backoff.Ev.success i 0) 2, 5) ∧
    Backoff.onExceptionRun (fun _ : Nat => true) (some 3) (fun _ => 1) (fun _ => 0)
      2 1 1 (fun _ => (Except.ok 5 : Except Nat Nat)) 4 0 0
      = some (Backoff.Ev.call 0 ::
          Backoff.fireAll (fun i => Backoff.Ev.success i 0) 2, Except.ok 5) :=
  Backoff.first_attempt_success (fun r => r == 0) (fun _ => true) (some 3) (some 3)
    (fun _ => 1) (fun _ => 0) 2 1 1 (fun _ => 5) (fun _ => Except.ok 5) 5 3 rfl rfl

lemma exc_exhaust_aux {α ε : Type} (exception : ε → Bool) (wait jitter : Nat → ℚ)
    (nSucc nBack nGive : Nat) (excs : Nat → ε) (m : Nat)
    (hc : ∀ i, exception (excs i) = true) :
    ∀ j tries k, tries + j = m → 1 ≤ j →
      ∃ tr, onExceptionRun exception (some m) wait jitter nSucc nBack nGive
          (fun i => (Except.error (excs i) : Except ε α)) j tries k
          = some (tr, Except.error (excs (k + (j - 1)))) ∧
        numCalls tr = j ∧ giveupEvts tr = (List.range nGive).map fun i => (i, m) := by
  intro j tries k hsum h1
  induction j, h1 using Nat.le_induction generalizing tries k with
  | base =>
    subst hsum
    refine ⟨Ev.call k :: fireAll (fun i => Ev.giveup i (tries + 1)) nGive, ?_, ?_, ?_⟩
    · simp [onExceptionRun, hc k]
    · simp
    · simp
  | succ j hj ih =>
    have hne : (some m : Option Nat) ≠ some (tries + 1) := by
      intro hcc
      have := Option.some.inj hcc
      omega
    obtain ⟨tr', h1', h2', h3'⟩ := ih (tries + 1) (k + 1) (by omega)
    have hidx : k + 1 + (j - 1) = k + (j + 1 - 1) := by omega
    refine ⟨Ev.call k :: (fireAll (fun i => Ev.backoff i (tries + 1)) nBack ++
        Ev.sleep (wait k + jitter k) :: tr'), ?_, ?_, ?_⟩
    · rw [← hidx]
      simp [onExceptionRun, hc k, hne, h1']
    · simp [h2']
    · simp [h3']

/-- C3: in exception mode with `max_tries = n ≥ 1` and an operation raising a
matching exception on every attempt, the wrapped call terminates after exactly
`n` target invocations, each giveup handler fires exactly once with
`tries = n`, and the triggering exception of the last attempt propagates
unchanged (`.error (excs (n - 1))`, no wrapping). -/
theorem exception_exhaustion {α ε : Type} (exception : ε → Bool)
    (wait jitter : Nat → ℚ) (nSucc nBack nGive : Nat) (excs : Nat → ε) (n : Nat)
    (hn : 1 ≤ n) (hc : ∀ i, exception (excs i) = true) :
    ∃ tr, onExceptionRun exception (some n) wait jitter nSucc nBack nGive
        (fun i => (Except.error (excs i) : Except ε α)) n 0 0
        = some (tr, Except.error (excs (n - 1))) ∧
      numCalls tr = n ∧ giveupEvts tr = (List.range nGive).map fun i => (i, n) := by
  have h := exc_exhaust_aux (α := α) exception wait jitter nSucc nBack nGive excs n hc
    n 0 0 (by omega) hn
  simpa using h

/-- Witness for C3: with `max_tries = 2` and an operation raising exception
`i` on attempt `i`, the trace has two target calls, the single giveup handler
fires once with `tries = 2`, and exception `1` (the second attempt's)
propagates. -/
theorem exception_exhaustion_witness :
    ∃ tr, Backoff.onExceptionRun (fun _ : Nat => true) (some 2) (fun _ => 0)
        (fun _ => 0) 0 1 1 (fun i => (Except.error i : Except Nat Nat)) 2 0 0
        = some (tr, Except.error 1) ∧ Backoff.numCalls tr = 2 ∧
      Backoff.giveupEvts tr = (List.range 1).map fun i => (i, 2) :=
  Backoff.exception_exhaustion (fun _ => true) (fun _ => 0) (fun _ => 0) 0 1 1
    (fun i => i) 2 (by decide) (fun _ => rfl)

lemma pred_exhaust_aux {α : Type} (predicate : α → Bool) (wait jitter : Nat → ℚ)
    (nSucc nBack nGive : Nat) (target : Nat → α) (m : Nat)
    (hp : ∀ i, predicate (target i) = true) :
    ∀ j tries k, tries + j = m → 1 ≤ j →
      ∃ tr, onPredicateRun predicate (some m) wait jitter nSucc nBack nGive
          target j tries k = some (tr, target (k + (j - 1))) ∧
        numCalls tr = j ∧ giveupEvts tr = (List.range nGive).map fun i => (i, m) := by
  intro j tries k hsum h1
  induction j, h1 using Nat.le_induction generalizing tries k with
  | base =>
    subst hsum
    refine ⟨Ev.call k :: fireAll (fun i => Ev.giveup i (tries + 1)) nGive, ?_, ?_, ?_⟩
    · simp [onPredicateRun, hp k]
    · simp
    · simp
  | succ j hj ih =>
    have hne : (some m : Option Nat) ≠ some (tries + 1) := by
      intro hcc
      have := Option.some.inj hcc
      omega
    obtain ⟨tr', h1', h2', h3'⟩ := ih (tries + 1) (k + 1) (by omega)
    have hidx : k + 1 + (j - 1) = k + (j + 1 - 1) := by omega
    refine ⟨Ev.call k :: (fireAll (fun i => Ev.backoff i (tries + 1)) nBack ++
        Ev.sleep (wait k + jitter k) :: tr'), ?_, ?_, ?_⟩
    · rw [← hidx]
      simp [onPredicateRun, hp k, hne, h1']
    · simp [h2']
    · simp [h3']

/-- C4: in predicate mode with `max_tries = n ≥ 1` and an operation whose
result satisfies the retry predicate on every attempt, the wrapped call
terminates after exactly `n` target invocations, each giveup handler fires
exactly once with `tries = n`, and the call returns the last unsatisfactory
result `target (n - 1)` normally (the run yields a value, not an
exception). -/
theorem predicate_exhaustion {α : Type} (predicate : α → Bool)
    (wait jitter : Nat → ℚ) (nSucc nBack nGive : Nat) (target : Nat → α) (n : Nat)
    (hn : 1 ≤ n) (hp : ∀ i, predicate (target i) = true) :
    ∃ tr, onPredicateRun predicate (some n) wait jitter nSucc nBack nGive
        target n 0 0 = some (tr, target (n - 1)) ∧
      numCalls tr = n ∧ giveupEvts tr = (List.range nGive).map fun i => (i, n) := by
  have h := pred_exhaust_aux predicate wait jitter nSucc nBack nGive target n hp
    n 0 0 (by omega) hn
  simpa using h

/-- Witness for C4: with `max_tries = 3` and an operation returning its
attempt index (always satisfying the constantly-true predicate), the trace
has three target calls, the single giveup handler fires once with
`tries = 3`, and the last result `2` is returned. -/
theorem predicate_exhaustion_witness :
    ∃ tr, Backoff.onPredicateRun (fun _ : Nat => true) (some 3) (fun _ => 0)
        (fun _ => 0) 0 1 1 (fun i => i) 3 0 0 = some (tr, 2) ∧
      Backoff.numCalls tr = 3 ∧
      Backoff.giveupEvts tr = (List.range 1).map fun i => (i, 3) :=
  Backoff.predicate_exhaustion (fun _ => true) (fun _ => 0) (fun _ => 0) 0 1 1
    (fun i => i) 3 (by decide) (fun _ => rfl)

/-- Unfolding of `predStep` on a running state. -/
lemma predStep_run {α : Type} (predicate : α → Bool) (maxTries : Option Nat)
    (target : Nat → α) (t k : Nat) :
    predStep predicate maxTries target (LoopSt.run t k) =
      if predicate (target k) then
        (if maxTries = some (t + 1) then LoopSt.givenUp (t + 1) (target k)
         else LoopSt.run (t + 1) (k + 1))
      else LoopSt.succeeded t (target k) := rfl

/-- Unfolding of `excStep` on a running state. -/
lemma excStep_run {α ε : Type} (exception : ε → Bool) (maxTries : Option Nat)
    (target : Nat → Except ε α) (t k : Nat) :
    excStep exception maxTries target (ExcSt.run t k) =
      match target k with
      | Except.ok a => ExcSt.succeeded t a
      | Except.error e =>
        if exception e then
          (if maxTries = some (t + 1) then ExcSt.givenUp (t + 1) e
           else ExcSt.run (t + 1) (k + 1))
        else ExcSt.uncaught t e := rfl

/-- Cap invariant of the predicate-mode loop for `max_tries = m`: a running
state has `tries < m`, a success exit keeps `tries < m`, and a giveup exit
has `tries = m` exactly. -/
def predCapInv {α : Type} (m : Nat) : LoopSt α → Prop
  | .run t _ => t < m
  | .succeeded t _ => t < m
  | .givenUp t _ => t = m

/-- Cap invariant of the exception-mode loop for `max_tries = m`. -/
def excCapInv {ε α : Type} (m : Nat) : ExcSt ε α → Prop
  | .run t _ => t < m
  | .succeeded t _ => t < m
  | .givenUp t _ => t = m
  | .uncaught t _ => t < m

lemma predCapInv_step {α : Type} (m : Nat) (predicate : α → Bool)
    (target : Nat → α) (s : LoopSt α) (h : predCapInv m s) :
    predCapInv m (predStep predicate (some m) target s) := by
  cases s with
  | run t k =>
    have h' : t < m := h
    rw [predStep_run]
    split
    · split
      · rename_i hEq
        exact (Option.some.inj hEq).symm
      · rename_i hNe
        show t + 1 < m
        have hm : m ≠ t + 1 := fun hcc => hNe (by rw [hcc])
        omega
    · exact h'
  | succeeded t r => exact h
  | givenUp t r => exact h

lemma excCapInv_step {α ε : Type} (m : Nat) (exception : ε → Bool)
    (target : Nat → Except ε α) (s : ExcSt ε α) (h : excCapInv m s) :
    excCapInv m (excStep exception (some m) target s) := by
  cases s with
  | run t k =>
    have h' : t < m := h
    rw [excStep_run]
    cases ht : target k with
    | ok a => exact h'
    | error e =>
      simp only
      split
      · split
        · rename_i hEq
          exact (Option.some.inj hEq).symm
        · rename_i hNe
          show t + 1 < m
          have hm : m ≠ t + 1 := fun hcc => hNe (by rw [hcc])
          omega
      · exact h'
  | succeeded t r => exact h
  | givenUp t r => exact h
  | uncaught t r => exact h

lemma predCapInv_iter {α : Type} (m : Nat) (hm : 1 ≤ m) (predicate : α → Bool)
    (target : Nat → α) (n : Nat) :
    predCapInv m (predIter predicate (some m) target n) := by
  induction n with
  | zero => exact hm
  | succ n ih =>
    rw [predIter, Function.iterate_succ_apply']
    exact predCapInv_step m predicate target _ ih

lemma excCapInv_iter {α ε : Type} (m : Nat) (hm : 1 ≤ m) (exception : ε → Bool)
    (target : Nat → Except ε α) (n : Nat) :
    excCapInv m (excIter exception (some m) target n) := by
  induction n with
  | zero => exact hm
  | succ n ih =>
    rw [excIter, Function.iterate_succ_apply']
    exact excCapInv_step m exception target _ ih

lemma tries_le_of_predCapInv {α : Type} (m : Nat) (s : LoopSt α)
    (h : predCapInv m s) : s.tries ≤ m := by
  cases s with
  | run t k => exact Nat.le_of_lt h
  | succeeded t r => exact Nat.le_of_lt h
  | givenUp t r => exact Nat.le_of_eq h

lemma tries_le_of_excCapInv {α ε : Type} (m : Nat) (s : ExcSt ε α)
    (h : excCapInv m s) : s.tries ≤ m := by
  cases s with
  | run t k => exact Nat.le_of_lt h
  | succeeded t r => exact Nat.le_of_lt h
  | givenUp t r => exact Nat.le_of_eq h
  | uncaught t r => exact Nat.le_of_lt h

/-- C2 (amended: positive `max_tries`): for every `max_tries = m ≥ 1`, in
both modes and at every loop iteration, the try counter never exceeds `m`;
moreover every still-running state has `tries < m` (so at `tries = m` the
loop has terminated, never retrying again) and every giveup exit has
`tries = m` exactly (the cap invariants). -/
theorem try_counter_bounded {α β ε : Type} (m : Nat) (hm : 1 ≤ m)
    (predicate : α → Bool) (target : Nat → α)
    (exception : ε → Bool) (etarget : Nat → Except ε β) :
    ∀ n, ((predIter predicate (some m) target n).tries ≤ m ∧
          predCapInv m (predIter predicate (some m) target n)) ∧
         (((excIter exception (some m) etarget n).tries ≤ m) ∧
          excCapInv m (excIter exception (some m) etarget n)) := by
  intro n
  exact ⟨⟨tries_le_of_predCapInv m _ (predCapInv_iter m hm predicate target n),
          predCapInv_iter m hm predicate target n⟩,
         ⟨tries_le_of_excCapInv m _ (excCapInv_iter m hm exception etarget n),
          excCapInv_iter m hm exception etarget n⟩⟩

/-- Witness for C2 (amended) at `max_tries = 1`, two loop iterations. -/
theorem try_counter_bounded_witness :
    ((Backoff.predIter (fun r : Nat => r == 0) (some 1) (fun _ => 0) 2).tries ≤ 1 ∧
      Backoff.predCapInv 1 (Backoff.predIter (fun r : Nat => r == 0) (some 1) (fun _ => 0) 2)) ∧
    (((Backoff.excIter (fun _ : Nat => true) (some 1)
        (fun _ => (Except.error 0 : Except Nat Nat)) 2).tries ≤ 1) ∧
      Backoff.excCapInv 1 (Backoff.excIter (fun _ : Nat => true) (some 1)
        (fun _ => (Except.error 0 : Except Nat Nat)) 2)) :=
  Backoff.try_counter_bounded 1 (by decide) (fun r => r == 0) (fun _ => 0)
    (fun _ => true) (fun _ => Except.error 0) 2

/-- C2 counterexample: with `max_tries = 0` configured and an always-falsy
result (the default falsy predicate retries), after one loop iteration the
try counter equals 1, exceeding `max_tries = 0` — refuting the claim for
non-negative `max_tries` in general. -/
theorem try_counter_exceeds_zero_max_tries :
    (Backoff.predIter (fun r : Nat => r == 0) (some 0) (fun _ => 0) 1).tries = 1 ∧
    ¬ (Backoff.predIter (fun r : Nat => r == 0) (some 0) (fun _ => 0) 1).tries ≤ 0 := by
  decide

/-- C5: with `max_tries = 0` and an operation that triggers retry on every
attempt, in both modes, after `n` loop iterations the loop is still running
with `tries = n`: since the give-up test `tries == max_tries` compares the
incremented counter (1, 2, 3, …) with 0, it never fires, so the loop backs
off and re-invokes without bound and no giveup handler ever runs. -/
theorem max_tries_zero_never_gives_up {α β ε : Type} (predicate : α → Bool)
    (target : Nat → α) (exception : ε → Bool) (excs : Nat → ε)
    (etarget : Nat → Except ε β)
    (hp : ∀ k, predicate (target k) = true)
    (het : ∀ k, etarget k = Except.error (excs k))
    (hme : ∀ k, exception (excs k) = true) :
    ∀ n, predIter predicate (some 0) target n = LoopSt.run n n ∧
         excIter exception (some 0) etarget n = ExcSt.run n n := by
  intro n
  induction n with
  | zero => exact ⟨rfl, rfl⟩
  | succ n ih =>
    obtain ⟨ihp, ihe⟩ := ih
    constructor
    · rw [predIter, Function.iterate_succ_apply']
      rw [predIter] at ihp
      rw [ihp, predStep_run]
      simp [hp n]
    · rw [excIter, Function.iterate_succ_apply']
      rw [excIter] at ihe
      rw [ihe, excStep_run]
      simp [het n, hme n]

/-- Witness for C5: with `max_tries = 0`, after three iterations both loops
are still running with `tries = 3`. -/
theorem max_tries_zero_never_gives_up_witness :
    Backoff.predIter (fun _ : Nat => true) (some 0) (fun _ => 0) 3
      = Backoff.LoopSt.run 3 3 ∧
    Backoff.excIter (fun _ : Nat => true) (some 0)
      (fun _ => (Except.error 0 : Except Nat Nat)) 3 = Backoff.ExcSt.run 3 3 :=
  Backoff.max_tries_zero_never_gives_up (fun _ => true) (fun _ => 0)
    (fun _ => true) (fun _ => 0) (fun _ => Except.error 0)
    (fun _ => rfl) (fun _ => rfl) (fun _ => rfl) 3

lemma range_map_shift {γ : Type} (f : Nat → γ) (k L : Nat) :
    f k :: (List.range L).map (fun j => f (k + 1 + j)) =
      (List.range (L + 1)).map fun j => f (k + j) := by
  rw [List.range_succ_eq_map, List.map_cons, List.map_map]
  have h0 : f (k + 0) = f k := by rw [Nat.add_zero]
  rw [h0]
  refine congrArg (List.cons (f k)) ?_
  refine List.map_congr_left fun j _ => ?_
  show f (k + 1 + j) = f (k + (j + 1))
  exact congrArg f (by omega)

lemma pred_sleeps_aux {α : Type} (predicate : α → Bool) (maxTries : Option Nat)
    (wait jitter : Nat → ℚ) (nSucc nBack nGive : Nat) (target : Nat → α) :
    ∀ fuel tries k tr r,
      onPredicateRun predicate maxTries wait jitter nSucc nBack nGive target
        fuel tries k = some (tr, r) →
      sleeps tr = (List.range (sleeps tr).length).map
        fun j => wait (k + j) + jitter (k + j) := by
  intro fuel
  induction fuel with
  | zero =>
    intro tries k tr r h
    exact absurd h (by simp [onPredicateRun])
  | succ fuel ih =>
    intro tries k tr r h
    by_cases hp : predicate (target k)
    · by_cases hmt : maxTries = some (tries + 1)
      · simp [onPredicateRun, hp, hmt] at h
        obtain ⟨h1, h2⟩ := h
        rw [← h1]
        simp
      · cases hrec : onPredicateRun predicate maxTries wait jitter nSucc nBack nGive
            target fuel (tries + 1) (k + 1) with
        | none => simp [onPredicateRun, hp, hmt, hrec] at h
        | some p =>
          obtain ⟨tr', r'⟩ := p
          have ih' := ih (tries + 1) (k + 1) tr' r' hrec
          simp [onPredicateRun, hp, hmt, hrec] at h
          obtain ⟨h1, h2⟩ := h
          rw [← h1]
          simp only [sleeps_cons_call, sleeps_append, sleeps_fireAll_backoff,
            List.nil_append, sleeps_cons_sleep, List.length_cons]
          rw [ih']
          simp only [List.length_map, List.length_range]
          exact range_map_shift (fun i => wait i + jitter i) k (sleeps tr').length
    · simp [onPredicateRun, hp] at h
      obtain ⟨h1, h2⟩ := h
      rw [← h1]
      simp

lemma exc_sleeps_aux {α ε : Type} (exception : ε → Bool) (maxTries : Option Nat)
    (wait jitter : Nat → ℚ) (nSucc nBack nGive : Nat) (target : Nat → Except ε α) :
    ∀ fuel tries k tr r,
      onExceptionRun exception maxTries wait jitter nSucc nBack nGive target
        fuel tries k = some (tr, r) →
      sleeps tr = (List.range (sleeps tr).length).map
        fun j => wait (k + j) + jitter (k + j) := by
  intro fuel
  induction fuel with
  | zero =>
    intro tries k tr r h
    exact absurd h (by simp [onExceptionRun])
  | succ fuel ih =>
    intro tries k tr r h
    cases ht : target k with
    | ok a =>
      simp [onExceptionRun, ht] at h
      obtain ⟨h1, h2⟩ := h
      rw [← h1]
      simp
    | error e =>
      by_cases hexc : exception e
      · by_cases hmt : maxTries = some (tries + 1)
        · simp [onExceptionRun, ht, hexc, hmt] at h
          obtain ⟨h1, h2⟩ := h
          rw [← h1]
          simp
        · cases hrec : onExceptionRun exception maxTries wait jitter nSucc nBack nGive
              target fuel (tries + 1) (k + 1) with
          | none => simp [onExceptionRun, ht, hexc, hmt, hrec] at h
          | some p =>
            obtain ⟨tr', r'⟩ := p
            have ih' := ih (tries + 1) (k + 1) tr' r' hrec
            simp [onExceptionRun, ht, hexc, hmt, hrec] at h
            obtain ⟨h1, h2⟩ := h
            rw [← h1]
            simp only [sleeps_cons_call, sleeps_append, sleeps_fireAll_backoff,
              List.nil_append, sleeps_cons_sleep, List.length_cons]
            rw [ih']
            simp only [List.length_map, List.length_range]
            exact range_map_shift (fun i => wait i + jitter i) k (sleeps tr').length
      · simp [onExceptionRun, ht, hexc] at h
        obtain ⟨h1, h2⟩ := h
        rw [← h1]
        simp

/-- C8: in both modes, for every terminating run, the sequence of pause
durations is exactly `wait k + jitter k` for `k = 0, 1, 2, …`: each pause is
the next wait-generator value plus the next jitter value, jitter applied
additively on every retry including the first; in particular when every
jitter value is 0 the `k`-th pause equals exactly the `k`-th wait-generator
value. -/
theorem pause_is_wait_plus_jitter {α β ε : Type} (predicate : α → Bool)
    (exception : ε → Bool) (mtP mtE : Option Nat) (wait jitter : Nat → ℚ)
    (nSucc nBack nGive : Nat) (targP : Nat → α) (targE : Nat → Except ε β)
    (fuelP fuelE : Nat) (trP : List Ev) (rP : α) (trE : List Ev) (rE : Except ε β)
    (hP : onPredicateRun predicate mtP wait jitter nSucc nBack nGive targP
      fuelP 0 0 = some (trP, rP))
    (hE : onExceptionRun exception mtE wait jitter nSucc nBack nGive targE
      fuelE 0 0 = some (trE, rE)) :
    (sleeps trP = (List.range (sleeps trP).length).map fun k => wait k + jitter k) ∧
    (sleeps trE = (List.range (sleeps trE).length).map fun k => wait k + jitter k) ∧
    ((∀ j, jitter j = 0) →
      sleeps trP = (List.range (sleeps trP).length).map wait ∧
      sleeps trE = (List.range (sleeps trE).length).map wait) := by
  have hp := pred_sleeps_aux predicate mtP wait jitter nSucc nBack nGive targP
    fuelP 0 0 trP rP hP
  have he := exc_sleeps_aux exception mtE wait jitter nSucc nBack nGive targE
    fuelE 0 0 trE rE hE
  simp only [Nat.zero_add] at hp he
  refine ⟨hp, he, fun hj => ⟨?_, ?_⟩⟩
  · calc sleeps trP
        = (List.range (sleeps trP).length).map fun j => wait j + jitter j := hp
      _ = (List.range (sleeps trP).length).map wait :=
        List.map_congr_left fun j _ => by rw [hj j, add_zero]
  · calc sleeps trE
        = (List.range (sleeps trE).length).map fun j => wait j + jitter j := he
      _ = (List.range (sleeps trE).length).map wait :=
        List.map_congr_left fun j _ => by rw [hj j, add_zero]

/-- Witness for C8: concrete two-iteration runs in both modes with constant
wait 5 and zero jitter; the single pause of each run equals 5. -/
theorem pause_is_wait_plus_jitter_witness :
    (Backoff.sleeps [Backoff.Ev.call 0, Backoff.Ev.backoff 0 1, Backoff.Ev.sleep 5,
        Backoff.Ev.call 1, Backoff.Ev.giveup 0 2]
      = (List.range (Backoff.sleeps [Backoff.Ev.call 0, Backoff.Ev.backoff 0 1,
          Backoff.Ev.sleep 5, Backoff.Ev.call 1, Backoff.Ev.giveup 0 2]).length).map
          fun k => (fun _ : Nat => (5 : ℚ)) k + (fun _ : Nat => (0 : ℚ)) k) ∧
    (Backoff.sleeps [Backoff.Ev.call 0, Backoff.Ev.backoff 0 1, Backoff.Ev.sleep 5,
        Backoff.Ev.call 1, Backoff.Ev.giveup 0 2]
      = (List.range (Backoff.sleeps [Backoff.Ev.call 0, Backoff.Ev.backoff 0 1,
          Backoff.Ev.sleep 5, Backoff.Ev.call 1, Backoff.Ev.giveup 0 2]).length).map
          fun k => (fun _ : Nat => (5 : ℚ)) k + (fun _ : Nat => (0 : ℚ)) k) ∧
    ((∀ j : Nat, (fun _ : Nat => (0 : ℚ)) j = 0) →
      (Backoff.sleeps [Backoff.Ev.call 0, Backoff.Ev.backoff 0 1, Backoff.Ev.sleep 5,
          Backoff.Ev.call 1, Backoff.Ev.giveup 0 2]
        = (List.range (Backoff.sleeps [Backoff.Ev.call 0, Backoff.Ev.backoff 0 1,
            Backoff.Ev.sleep 5, Backoff.Ev.call 1, Backoff.Ev.giveup 0 2]).length).map
            fun _ : Nat => (5 : ℚ)) ∧
      (Backoff.sleeps [Backoff.Ev.call 0, Backoff.Ev.backoff 0 1, Backoff.Ev.sleep 5,
          Backoff.Ev.call 1, Backoff.Ev.giveup 0 2]
        = (List.range (Backoff.sleeps [Backoff.Ev.call 0, Backoff.Ev.backoff 0 1,
            Backoff.Ev.sleep 5, Backoff.Ev.call 1, Backoff.Ev.giveup 0 2]).length).map
            fun _ : Nat => (5 : ℚ))) :=
  Backoff.pause_is_wait_plus_jitter (fun r : Nat => r == 0) (fun _ : Unit => true)
    (some 2) (some 2) (fun _ => 5) (fun _ => 0) 1 1 1 (fun _ => 0)
    (fun _ => (Except.error () : Except Unit Nat)) 2 2
    [Backoff.Ev.call 0, Backoff.Ev.backoff 0 1, Backoff.Ev.sleep 5,
      Backoff.Ev.call 1, Backoff.Ev.giveup 0 2] 0
    [Backoff.Ev.call 0, Backoff.Ev.backoff 0 1, Backoff.Ev.sleep 5,
      Backoff.Ev.call 1, Backoff.Ev.giveup 0 2] (Except.error ())
    (by norm_num [Backoff.onPredicateRun, Backoff.fireAll, List.range_succ])
    (by norm_num [Backoff.onExceptionRun, Backoff.fireAll, List.range_succ])

/-- C1 (evaluation of the code at a failing configuration): in both modes,
with one backoff and one giveup handler configured, the traces show that the
code invokes each handler as `hdlr(invoc, tries)` — the payload beyond the
invocation descriptor is the try counter alone, with no third argument
carrying the triggering result value or exception (`Ev.backoff 0 1` and
`Ev.giveup 0 2` resp. `Ev.giveup 0 1` record everything the handlers
receive). -/
theorem handler_payload_has_no_trigger :
    Backoff.onPredicateRun (fun r : Nat => r == 0) (some 2) (fun _ => 5) (fun _ => 0)
      1 1 1 (fun _ => 0) 2 0 0
      = some ([Backoff.Ev.call 0, Backoff.Ev.backoff 0 1, Backoff.Ev.sleep 5,
               Backoff.Ev.call 1, Backoff.Ev.giveup 0 2], 0) ∧
    Backoff.onExceptionRun (fun _ : Unit => true) (some 1) (fun _ => 5) (fun _ => 0)
      1 1 1 (fun _ => (Except.error () : Except Unit Nat)) 1 0 0
      = some ([Backoff.Ev.call 0, Backoff.Ev.giveup 0 1], Except.error ()) := by
  constructor
  · norm_num [onPredicateRun, fireAll, List.range_succ]
  · norm_num [onExceptionRun, fireAll, List.range_succ]

end Backoff
